import Mathlib

/-!
Verification development for the EmmaPython client-side object model
(`myemma/model/member.py`, `myemma/adapter/requests_adapter.py`).

The member entity keeps its state in a string-keyed mapping; operations
talk to a transport adapter and are modelled here as pure functions that
return the list of transport calls issued, the successor state, and a
result that is either a value or the error the Python code would raise.
-/

/-- Modelled from the spec: `status.py` is not under `src/`. §2/§3 of the
spec describe Status as a closed set of named singleton values, each backed
by a short wire code, constructed by a factory lookup; scenario 3 fixes the
code "a" as resolving to Active. Equality is comparison of named values. -/
inductive Status where
  | Active
  | Error
  | Forwarded
  | OptOut
deriving DecidableEq

/-- Modelled from the spec: wire code of each Status singleton ("a" for
Active per spec scenario 3; the remaining codes follow the same
initial-letter convention, and no claim depends on their exact spelling). -/
def Status.getCode : Status → String
  | .Active => "a"
  | .Error => "e"
  | .Forwarded => "f"
  | .OptOut => "o"

/-- Modelled from the spec: the factory lookup from a short wire code to a
Status singleton; unrecognized codes have unspecified behavior (spec §9),
modelled as a lookup failure. -/
def Status.factory? : String → Option Status := fun c =>
  if c = "a" then some .Active
  else if c = "e" then some .Error
  else if c = "f" then some .Forwarded
  else if c = "o" then some .OptOut
  else none

/-- A JSON-shaped value as it appears in entity field mappings, wire
bodies and transport responses: ints, strings, booleans, resolved Status
singletons, sequences and string-keyed objects. -/
inductive Value where
  | vint (n : Int)
  | vstr (s : String)
  | vbool (b : Bool)
  | vstatus (st : Status)
  | vlist (l : List Value)
  | vobj (fields : List (String × Value))



/-- A field mapping (Python dict with string keys), as an insertion-ordered
association list without duplicate keys. -/
abbrev Dict := List (String × Value)

/-- Key lookup in a field mapping. -/
def dictGet (d : Dict) (k : String) : Option Value :=
  match d with
  | [] => none
  | (k', v) :: rest => if k' = k then some v else dictGet rest k

/-- Key membership in a field mapping. -/
def dictContains (d : Dict) (k : String) : Bool :=
  (dictGet d k).isSome

/-- Insert or replace a key, keeping the position of an existing key
(Python dict assignment). -/
def dictInsert (d : Dict) (k : String) (v : Value) : Dict :=
  match d with
  | [] => [(k, v)]
  | (k', v') :: rest =>
      if k' = k then (k, v) :: rest else (k', v') :: dictInsert rest k v

/-- Delete a key (Python `del d[k]`; deleting an absent key is a no-op in
this model, and every call site checks presence first). -/
def dictErase (d : Dict) (k : String) : Dict :=
  match d with
  | [] => []
  | (k1, v1) :: rest => if k1 = k then dictErase rest k else (k1, v1) :: dictErase rest k

/-- Python `d.update(sub)`: insert every entry of `sub` into `d` in order,
overriding existing keys. -/
def dictUpdate (d sub : Dict) : Dict :=
  sub.foldl (fun acc p => dictInsert acc p.1 p.2) d

example : dictGet (dictInsert [("a", .vint 1)] "b" (.vstr "x")) "b" = some (.vstr "x") := rfl

/-- Errors raised by the member model layer. The named error classes
(NoMemberEmailError and friends) are declared in myemma/model/init code
that is not under src; their meaning is taken from spec section 7. The
keyError and typeError cases stand for the built-in Python exceptions the
code would raise on a missing key or a wrongly-shaped value. -/
inductive ApiError where
  | noMemberEmailError
  | noMemberIdError
  | noMemberStatusError
  | memberUpdateError
  | keyError (k : String)
  | typeError
  | statusFactoryError
deriving DecidableEq

/-- Python truthiness of a value (used by the code in conditions such as
"if self.account.adapter.put(path)" and "if outcome['added']"). -/
def truthy : Value → Bool
  | .vint n => n != 0
  | .vstr s => s != ""
  | .vbool b => b
  | .vstatus _ => true
  | .vlist l => !l.isEmpty
  | .vobj f => !f.isEmpty

/-- Truthiness of an adapter response; the Python None (a 404 result) is
falsy. -/
def truthyOpt : Option Value → Bool
  | none => false
  | some v => truthy v

/-- Python "%s" string interpolation of a field value, used to build
request paths. Identity and email fields are ints or strings in every
claim; the remaining cases are stand-ins that never arise there. -/
def valueToStr : Value → String
  | .vint n => toString n
  | .vstr s => s
  | .vbool b => if b then "True" else "False"
  | .vstatus st => st.getCode
  | .vlist _ => "<list>"
  | .vobj _ => "<dict>"

/-- First statement of Member._parse_raw: when a status key is present,
replace its raw code with the resolved Status singleton. -/
def parseStatusStep (raw : Dict) : Except ApiError Dict :=
  match dictGet raw "status" with
  | none => .ok raw
  | some (.vstr c) =>
      match Status.factory? c with
      | some st => .ok (dictInsert raw "status" (.vstatus st))
      | none => .error .statusFactoryError
  | some _ => .error .statusFactoryError

/-- Second statement of Member._parse_raw: drop the wire-internal
member_status_id key when present. -/
def dropStatusId (d : Dict) : Dict :=
  if dictContains d "member_status_id" then dictErase d "member_status_id" else d

/-- Third statement of Member._parse_raw: flatten a nested fields
sub-object into the top level (its entries override same-named top-level
keys) and remove the wrapper key. -/
def mergeFieldsStep (d : Dict) : Except ApiError Dict :=
  match dictGet d "fields" with
  | none => .ok d
  | some (.vobj sub) => .ok (dictErase (dictUpdate d sub) "fields")
  | some _ => .error .typeError

/-- Member raw-wire parse step (Member._parse_raw): the three statements
above, in source order. -/
def parseRaw (raw : Dict) : Except ApiError Dict :=
  match parseStatusStep raw with
  | .error e => .error e
  | .ok r1 => mergeFieldsStep (dropStatusId r1)

/-- One step of the reduce in Member.extract: a field whose name is in the
top-level set stays at the top of the wire body; any other field goes into
the nested fields sub-object, which is created on first use. -/
def squash (topLevel : List String) (acc : Except ApiError Dict)
    (kv : String × Value) : Except ApiError Dict :=
  match acc with
  | .error e => .error e
  | .ok d =>
    if topLevel.contains kv.1 then .ok (dictInsert d kv.1 kv.2)
    else
      match dictGet d "fields" with
      | none => .ok (dictInsert d "fields" (.vobj [(kv.1, kv.2)]))
      | some (.vobj f) => .ok (dictInsert d "fields" (.vobj (dictInsert f kv.1 kv.2)))
      | some _ => .error .typeError

/-- Member.extract: project the entity's field mapping into a wire body.
Fails when the email field is absent; the default top-level set is
member_id and email; fields recognized neither as top-level nor as one of
the account's custom-field shortcuts are silently omitted. The shortcut
list is the external collaborator account.fields.export_shortcuts() and is
passed in as a parameter. -/
def extract (shortcuts : List String) (topLevel : Option (List String))
    (d : Dict) : Except ApiError Dict :=
  if !dictContains d "email" then .error .noMemberEmailError
  else
    let tl := topLevel.getD ["member_id", "email"]
    (d.filter (fun kv => (shortcuts ++ tl).contains kv.1)).foldl (squash tl) (.ok [])

example :
    extract ["first_name"] none
      [("member_id", .vint 123), ("email", .vstr "a@b.com"), ("first_name", .vstr "X")] =
    .ok [("member_id", .vint 123), ("email", .vstr "a@b.com"),
         ("fields", .vobj [("first_name", .vstr "X")])] := rfl

/-- An HTTP response as seen by RequestsAdapter._process_response: its
numeric status code and its decoded JSON body. -/
structure HttpResponse where
  status_code : Nat
  json : Value

/-- Outcome of processing an HTTP response: the decoded body, the None
returned for a 404, or the ApiRequestFailed exception carrying the raw
response. -/
inductive AdapterResult where
  | ok (v : Value)
  | notFound
  | apiRequestFailed (resp : HttpResponse)

/-- RequestsAdapter._process_response: 404 yields None; any other status
code strictly above 200 raises ApiRequestFailed with the raw response;
otherwise the decoded JSON body is returned. -/
def processResponse (r : HttpResponse) : AdapterResult :=
  if r.status_code = 404 then .notFound
  else if r.status_code > 200 then .apiRequestFailed r
  else .ok r.json

/-- Definition following the claim's words rather than the source: a
success HTTP status in the conventional sense, the 2xx class. Used to
compare the spec's phrasing against processResponse. -/
def isHttpSuccess (s : Nat) : Bool := decide (200 ≤ s) && decide (s < 300)

/-- A transport call issued by the model layer, as recorded for the
verification of call-counting claims. -/
inductive Call where
  | get (path : String)
  | post (path : String) (data : Dict)
  | put (path : String) (data : Dict)

/-- The transport collaborator, modelled as a response oracle: what the
adapter would return for each get, post and put (None models a 404 result;
the member layer never calls delete). -/
structure Adapter where
  getResp : String → Option Value
  postResp : String → Dict → Option Value
  putResp : String → Dict → Option Value

/-- Modelled from the spec: the dict-like entity container and the
Collection base class live in model package code that is not under src.
Per spec sections 3 and 4.1, a Member owns its field mapping and two
lazily cached collections whose caches start empty; membership, indexing
and length on the container delegate to the underlying mapping. Group and
Mailing entities (group.py, mailing.py, also not under src) are modelled
as the raw field mapping each one wraps; no claim inspects their
internals. -/
structure MemberState where
  fields : Dict
  groupsCache : List (Value × Dict)
  mailingsCache : List (Value × Dict)

/-- Result of running one member operation: the transport calls it issued
in order, the member state afterwards, and either the returned value or
the error raised. -/
structure StepResult (α : Type) where
  trace : List Call
  state : MemberState
  result : Except ApiError α

/-- Member.opt_out: requires the email field; puts to the email-keyed
opt-out path; only a truthy response flips the local status to OptOut. -/
def memberOptOut (A : Adapter) (m : MemberState) : StepResult Unit :=
  match dictGet m.fields "email" with
  | none => ⟨[], m, .error .noMemberEmailError⟩
  | some e =>
    let path := "/members/email/optout/" ++ valueToStr e
    if truthyOpt (A.putResp path []) then
      ⟨[.put path []], { m with fields := dictInsert m.fields "status" (.vstatus .OptOut) }, .ok ()⟩
    else
      ⟨[.put path []], m, .ok ()⟩

/-- Member.get_opt_out_detail: requires the identity field; reading the
status field of a member that lacks one raises a key error; a status other
than the OptOut singleton short-circuits to an empty list without any
transport call; otherwise one get is issued and its decoded result is
returned verbatim (including a None for a 404). -/
def getOptOutDetail (A : Adapter) (m : MemberState) : StepResult (Option Value) :=
  match dictGet m.fields "member_id" with
  | none => ⟨[], m, .error .noMemberIdError⟩
  | some mid =>
    match dictGet m.fields "status" with
    | none => ⟨[], m, .error (.keyError "status")⟩
    | some (.vstatus .OptOut) =>
      let path := "/members/" ++ valueToStr mid ++ "/optout"
      ⟨[.get path], m, .ok (A.getResp path)⟩
    | some _ => ⟨[], m, .ok (some (.vlist []))⟩

/-- The wire body built by Member._update: the extracted entity, plus a
status_to transition field carrying the status's wire code exactly when
the current status is Active, Error or OptOut. Reading the status field of
a member that lacks one raises a key error; a status field that is not a
Status singleton compares unequal to all three and adds no transition
field. -/
def updateBody (shortcuts : List String) (d : Dict) : Except ApiError Dict :=
  match extract shortcuts none d with
  | .error e => .error e
  | .ok data =>
    match dictGet d "status" with
    | none => .error (.keyError "status")
    | some (.vstatus st) =>
        if st = .Active ∨ st = .Error ∨ st = .OptOut then
          .ok (dictInsert data "status_to" (.vstr st.getCode))
        else .ok data
    | some _ => .ok data

/-- Member._update: put the update body to the identity-scoped path; a
falsy response raises MemberUpdateError; the member's own state is never
touched on this path. -/
def memberUpdate (A : Adapter) (sh : List String) (m : MemberState) : StepResult Unit :=
  match dictGet m.fields "member_id" with
  | none => ⟨[], m, .error (.keyError "member_id")⟩
  | some mid =>
    let path := "/members/" ++ valueToStr mid
    match updateBody sh m.fields with
    | .error e => ⟨[], m, .error e⟩
    | .ok data =>
      if truthyOpt (A.putResp path data) then ⟨[.put path data], m, .ok ()⟩
      else ⟨[.put path data], m, .error .memberUpdateError⟩

/-- The decode-and-key step of Collection.fetch_all: each element of the
returned sequence must be an object carrying the relation's key field; the
cache keeps the keyed entries in wire order (a Python dict would collapse
duplicate keys; no claim involves duplicates, and Python 2 dict ordering
is arbitrary, so the keyed sequence is the canonical choice). -/
def buildCache (keyField : String) (xs : List Value) :
    Except ApiError (List (Value × Dict)) :=
  xs.foldl (fun acc x =>
    match acc with
    | .error e => .error e
    | .ok c =>
      match x with
      | .vobj d =>
        match dictGet d keyField with
        | some k => .ok (c ++ [(k, d)])
        | none => .error (.keyError keyField)
      | _ => .error .typeError) (.ok [])

/-- MemberGroupCollection.fetch_all: requires the parent's identity field;
an unpopulated (empty) cache triggers exactly one get whose decoded
elements are keyed by group_name; a populated cache is returned unchanged
with no transport call. A None response (a 404) is unsubscriptable in
Python and raises. -/
def groupsFetchAll (A : Adapter) (m : MemberState) :
    StepResult (List (Value × Dict)) :=
  if !dictContains m.fields "member_id" then ⟨[], m, .error .noMemberIdError⟩
  else
    let mid := (dictGet m.fields "member_id").getD (.vint 0)
    let path := "/members/" ++ valueToStr mid ++ "/groups"
    if !m.groupsCache.isEmpty then ⟨[], m, .ok m.groupsCache⟩
    else
      match A.getResp path with
      | none => ⟨[.get path], m, .error .typeError⟩
      | some (.vlist xs) =>
        match buildCache "group_name" xs with
        | .error e => ⟨[.get path], m, .error e⟩
        | .ok c => ⟨[.get path], { m with groupsCache := c }, .ok c⟩
      | some _ => ⟨[.get path], m, .error .typeError⟩

/-- MemberMailingCollection.fetch_all: as for groups, with the mailings
sub-path and the cache keyed by mailing_id. -/
def mailingsFetchAll (A : Adapter) (m : MemberState) :
    StepResult (List (Value × Dict)) :=
  if !dictContains m.fields "member_id" then ⟨[], m, .error .noMemberIdError⟩
  else
    let mid := (dictGet m.fields "member_id").getD (.vint 0)
    let path := "/members/" ++ valueToStr mid ++ "/mailings"
    if !m.mailingsCache.isEmpty then ⟨[], m, .ok m.mailingsCache⟩
    else
      match A.getResp path with
      | none => ⟨[.get path], m, .error .typeError⟩
      | some (.vlist xs) =>
        match buildCache "mailing_id" xs with
        | .error e => ⟨[.get path], m, .error e⟩
        | .ok c => ⟨[.get path], { m with mailingsCache := c }, .ok c⟩
      | some _ => ⟨[.get path], m, .error .typeError⟩

/-- Member._add: extract the entity; a non-empty groups cache contributes
its keys as group_ids (fetch_all on the populated cache, which still
requires the identity field first); a truthy signup_form_id is attached;
one post goes to the add path. The returned outcome's status code is
resolved and assigned locally, and only a truthy added flag assigns the
server-issued member_id. -/
def memberAdd (A : Adapter) (sh : List String) (m : MemberState)
    (signup_form_id : Option Value) : StepResult Unit :=
  match extract sh none m.fields with
  | .error e => ⟨[], m, .error e⟩
  | .ok data0 =>
    let step : StepResult Dict :=
      if m.groupsCache.isEmpty then ⟨[], m, .ok data0⟩
      else
        let r := groupsFetchAll A m
        ⟨r.trace, r.state,
          r.result.map (fun c => dictInsert data0 "group_ids" (.vlist (c.map Prod.fst)))⟩
    match step.result with
    | .error e => ⟨step.trace, step.state, .error e⟩
    | .ok data1 =>
      let data :=
        match signup_form_id with
        | some v => if truthy v then dictInsert data1 "signup_form_id" v else data1
        | none => data1
      let tr := step.trace ++ [.post "/members/add" data]
      match A.postResp "/members/add" data with
      | none => ⟨tr, step.state, .error .typeError⟩
      | some (.vobj outcome) =>
        match dictGet outcome "status" with
        | none => ⟨tr, step.state, .error (.keyError "status")⟩
        | some (.vstr c) =>
          match Status.factory? c with
          | none => ⟨tr, step.state, .error .statusFactoryError⟩
          | some st =>
            let m1 := { step.state with
                        fields := dictInsert step.state.fields "status" (.vstatus st) }
            match dictGet outcome "added" with
            | none => ⟨tr, m1, .error (.keyError "added")⟩
            | some av =>
              if truthy av then
                match dictGet outcome "member_id" with
                | none => ⟨tr, m1, .error (.keyError "member_id")⟩
                | some mid =>
                  ⟨tr, { m1 with fields := dictInsert m1.fields "member_id" mid }, .ok ()⟩
              else ⟨tr, m1, .ok ()⟩
        | some _ => ⟨tr, step.state, .error .statusFactoryError⟩
      | some _ => ⟨tr, step.state, .error .typeError⟩

/-- Member.save: dispatch on the presence of the identity field — absent
goes to the create path, present to the update path. -/
def memberSave (A : Adapter) (sh : List String) (m : MemberState)
    (signup_form_id : Option Value) : StepResult Unit :=
  if !dictContains m.fields "member_id" then memberAdd A sh m signup_form_id
  else memberUpdate A sh m

/-- A create call: a post to the add path. -/
def isCreateCall : Call → Bool
  | .post p _ => p == "/members/add"
  | _ => false

/-- Any post call. -/
def isPostCall : Call → Bool
  | .post _ _ => true
  | _ => false

/-- Any put call. -/
def isPutCall : Call → Bool
  | .put _ _ => true
  | _ => false

/-- Any get call. -/
def isGetCall : Call → Bool
  | .get _ => true
  | _ => false


theorem dictGet_insert_self (d : Dict) (k : String) (v : Value) :
    dictGet (dictInsert d k v) k = some v := by
  induction d with
  | nil => simp [dictInsert, dictGet]
  | cons p rest ih =>
    obtain ⟨k1, v1⟩ := p
    by_cases h : k1 = k
    · simp [dictInsert, h, dictGet]
    · simp [dictInsert, h, dictGet, ih]

theorem dictGet_insert_ne (d : Dict) (k k2 : String) (v : Value) (h : k ≠ k2) :
    dictGet (dictInsert d k v) k2 = dictGet d k2 := by
  induction d with
  | nil => simp [dictInsert, dictGet, h]
  | cons p rest ih =>
    obtain ⟨k1, v1⟩ := p
    by_cases h1 : k1 = k
    · subst h1
      simp [dictInsert, dictGet, h, Ne.symm h]
    · by_cases h2 : k1 = k2
      · simp [dictInsert, h1, dictGet, h2, Ne.symm h]
      · simp [dictInsert, h1, dictGet, h2, ih]

theorem dictGet_erase_ne (d : Dict) (k k2 : String) (h : k ≠ k2) :
    dictGet (dictErase d k) k2 = dictGet d k2 := by
  induction d with
  | nil => simp [dictErase]
  | cons p rest ih =>
    obtain ⟨k1, v1⟩ := p
    by_cases h1 : k1 = k
    · subst h1
      simp [dictErase, dictGet, h, Ne.symm h, ih]
    · by_cases h2 : k1 = k2
      · simp [dictErase, h1, dictGet, h2, Ne.symm h]
      · simp [dictErase, h1, dictGet, h2, ih]

theorem dictGet_update_of_not_mem (sub : Dict) (k : String) (h : dictGet sub k = none) :
    ∀ d : Dict, dictGet (dictUpdate d sub) k = dictGet d k := by
  induction sub with
  | nil => intro d; simp [dictUpdate]
  | cons p rest ih =>
    intro d
    obtain ⟨k1, v1⟩ := p
    have h1 : k1 ≠ k := by
      intro hc; rw [dictGet, if_pos hc] at h; exact Option.noConfusion h
    rw [dictGet, if_neg h1] at h
    have hstep : dictUpdate d ((k1, v1) :: rest) = dictUpdate (dictInsert d k1 v1) rest := rfl
    rw [hstep, ih h, dictGet_insert_ne _ _ _ _ h1]

theorem dictGet_eq_none_iff (d : Dict) (k : String) :
    dictGet d k = none ↔ k ∉ d.map Prod.fst := by
  induction d with
  | nil => simp [dictGet]
  | cons p rest ih =>
    obtain ⟨k1, v1⟩ := p
    by_cases h : k1 = k
    · simp [dictGet, h]
    · simp [dictGet, h, ih, Ne.symm h]

/-- Well-formedness of a field mapping: no duplicate keys (a Python dict
cannot hold two entries with the same key). -/
def keysNodup (d : Dict) : Prop := (d.map Prod.fst).Nodup

theorem mem_keys_insert (d : Dict) (k x : String) (v : Value)
    (hx : x ∈ (dictInsert d k v).map Prod.fst) : x ∈ d.map Prod.fst ∨ x = k := by
  induction d with
  | nil =>
    rw [dictInsert] at hx
    simp only [List.map_cons, List.map_nil, List.mem_singleton] at hx
    exact Or.inr hx
  | cons p rest ih =>
    obtain ⟨k1, v1⟩ := p
    by_cases h : k1 = k
    · rw [dictInsert, if_pos h] at hx
      simp only [List.map_cons, List.mem_cons] at hx
      rcases hx with rfl | hx
      · exact Or.inr rfl
      · exact Or.inl (by simp only [List.map_cons, List.mem_cons]; exact Or.inr hx)
    · rw [dictInsert, if_neg h] at hx
      simp only [List.map_cons, List.mem_cons] at hx
      rcases hx with rfl | hx
      · exact Or.inl (by rw [List.map_cons]; exact List.mem_cons_self _ _)
      · rcases ih hx with hm | rfl
        · exact Or.inl (by rw [List.map_cons]; exact List.mem_cons.mpr (Or.inr hm))
        · exact Or.inr rfl

theorem keysNodup_insert (d : Dict) (k : String) (v : Value) (h : keysNodup d) :
    keysNodup (dictInsert d k v) := by
  induction d with
  | nil => simp [keysNodup, dictInsert]
  | cons p rest ih =>
    obtain ⟨k1, v1⟩ := p
    unfold keysNodup at h
    rw [List.map_cons, List.nodup_cons] at h
    by_cases hk : k1 = k
    · unfold keysNodup
      rw [dictInsert, if_pos hk, List.map_cons, List.nodup_cons]
      exact ⟨by rw [← hk]; exact h.1, h.2⟩
    · unfold keysNodup
      rw [dictInsert, if_neg hk, List.map_cons, List.nodup_cons]
      refine ⟨fun hmem => ?_, ih h.2⟩
      rcases mem_keys_insert rest k k1 v hmem with hm | rfl
      · exact h.1 hm
      · exact hk rfl

theorem mem_keys_erase (d : Dict) (k x : String)
    (hx : x ∈ (dictErase d k).map Prod.fst) : x ∈ d.map Prod.fst := by
  induction d with
  | nil => simp [dictErase] at hx
  | cons p rest ih =>
    obtain ⟨k1, v1⟩ := p
    by_cases h : k1 = k
    · rw [dictErase, if_pos h] at hx
      simp only [List.map_cons, List.mem_cons]
      exact Or.inr (ih hx)
    · rw [dictErase, if_neg h] at hx
      simp only [List.map_cons, List.mem_cons] at hx ⊢
      rcases hx with rfl | hx
      · exact Or.inl rfl
      · exact Or.inr (ih hx)

theorem keysNodup_erase (d : Dict) (k : String) (h : keysNodup d) :
    keysNodup (dictErase d k) := by
  induction d with
  | nil => simp [keysNodup, dictErase]
  | cons p rest ih =>
    obtain ⟨k1, v1⟩ := p
    unfold keysNodup at h
    rw [List.map_cons, List.nodup_cons] at h
    by_cases hk : k1 = k
    · rw [keysNodup, dictErase, if_pos hk]
      exact ih h.2
    · rw [keysNodup, dictErase, if_neg hk, List.map_cons, List.nodup_cons]
      exact ⟨fun hmem => h.1 (mem_keys_erase rest k k1 hmem), ih h.2⟩

theorem keysNodup_update (sub : Dict) :
    ∀ d : Dict, keysNodup d → keysNodup (dictUpdate d sub) := by
  induction sub with
  | nil => intro d h; simpa [dictUpdate] using h
  | cons p rest ih =>
    intro d h
    have hstep : dictUpdate d (p :: rest) = dictUpdate (dictInsert d p.1 p.2) rest := rfl
    rw [hstep]
    exact ih _ (keysNodup_insert d p.1 p.2 h)

theorem squash_foldl_error (tl : List String) (items : List (String × Value)) (e : ApiError) :
    items.foldl (squash tl) (.error e) = .error e := by
  induction items with
  | nil => rfl
  | cons p rest ih => simpa [List.foldl, squash] using ih

/-- Invariant of the accumulator of the reduce in Member.extract: the
nested fields key is absent or holds an object. -/
def fieldsOk (d : Dict) : Prop :=
  dictGet d "fields" = none ∨ ∃ f, dictGet d "fields" = some (.vobj f)

theorem squash_foldl_ok (tl : List String) (htl : "fields" ∉ tl) :
    ∀ (items : List (String × Value)) (d : Dict), fieldsOk d →
      ∃ ex, items.foldl (squash tl) (.ok d) = .ok ex ∧ fieldsOk ex ∧
        (∀ k, k ∈ tl → (items.map Prod.fst).Nodup →
            (∀ v, dictGet items k = some v → dictGet ex k = some v) ∧
            (dictGet items k = none → dictGet ex k = dictGet d k)) ∧
        (∀ k, k ∉ tl → k ≠ "fields" → dictGet ex k = dictGet d k) := by
  intro items
  induction items with
  | nil =>
    intro d hd
    refine ⟨d, rfl, hd, fun k _ _ => ⟨fun v hv => ?_, fun _ => rfl⟩, fun k _ _ => rfl⟩
    simp [dictGet] at hv
  | cons p rest ih =>
    intro d hd
    obtain ⟨k1, v1⟩ := p
    by_cases hk1 : k1 ∈ tl
    · have hk1f : k1 ≠ "fields" := fun hc => htl (hc ▸ hk1)
      have hd1 : fieldsOk (dictInsert d k1 v1) := by
        rcases hd with hnone | ⟨f, hf⟩
        · exact Or.inl (by rw [dictGet_insert_ne _ _ _ _ hk1f]; exact hnone)
        · exact Or.inr ⟨f, by rw [dictGet_insert_ne _ _ _ _ hk1f]; exact hf⟩
      have hfold : ((k1, v1) :: rest).foldl (squash tl) (.ok d) =
          rest.foldl (squash tl) (.ok (dictInsert d k1 v1)) := by
        simp [List.foldl, squash, hk1]
      obtain ⟨ex, hex, hexOk, hT, hN⟩ := ih (dictInsert d k1 v1) hd1
      refine ⟨ex, by rw [hfold]; exact hex, hexOk, ?_, ?_⟩
      · intro k hk hn
        rw [List.map_cons, List.nodup_cons] at hn
        by_cases hkk : k1 = k
        · subst hkk
          have hrest : dictGet rest k1 = none := (dictGet_eq_none_iff _ _).mpr hn.1
          have hTk := hT k1 hk hn.2
          constructor
          · intro v hv
            have hv1 : dictGet ((k1, v1) :: rest) k1 = some v1 := by simp [dictGet]
            rw [hv1] at hv
            obtain rfl : v1 = v := by injection hv
            rw [hTk.2 hrest, dictGet_insert_self]
          · intro hv
            have hv1 : dictGet ((k1, v1) :: rest) k1 = some v1 := by simp [dictGet]
            rw [hv1] at hv
            exact Option.noConfusion hv
        · have hgets : dictGet ((k1, v1) :: rest) k = dictGet rest k := by
            simp only [dictGet, if_neg hkk]
          have hTk := hT k hk hn.2
          constructor
          · intro v hv; rw [hgets] at hv; exact hTk.1 v hv
          · intro hv; rw [hgets] at hv
            rw [hTk.2 hv, dictGet_insert_ne _ _ _ _ hkk]
      · intro k hk hkf
        have hkk : k1 ≠ k := fun hc => hk (hc ▸ hk1)
        rw [hN k hk hkf, dictGet_insert_ne _ _ _ _ hkk]
    · have hmain : ∀ f2 : List (String × Value),
          ((k1, v1) :: rest).foldl (squash tl) (.ok d) =
            rest.foldl (squash tl) (.ok (dictInsert d "fields" (.vobj f2))) →
          ∃ ex, ((k1, v1) :: rest).foldl (squash tl) (.ok d) = .ok ex ∧ fieldsOk ex ∧
            (∀ k, k ∈ tl → (((k1, v1) :: rest).map Prod.fst).Nodup →
                (∀ v, dictGet ((k1, v1) :: rest) k = some v → dictGet ex k = some v) ∧
                (dictGet ((k1, v1) :: rest) k = none → dictGet ex k = dictGet d k)) ∧
            (∀ k, k ∉ tl → k ≠ "fields" → dictGet ex k = dictGet d k) := by
        intro f2 hfold
        have hd1 : fieldsOk (dictInsert d "fields" (.vobj f2)) :=
          Or.inr ⟨f2, dictGet_insert_self _ _ _⟩
        obtain ⟨ex, hex, hexOk, hT, hN⟩ := ih (dictInsert d "fields" (.vobj f2)) hd1
        refine ⟨ex, by rw [hfold]; exact hex, hexOk, ?_, ?_⟩
        · intro k hk hn
          rw [List.map_cons, List.nodup_cons] at hn
          have hkf : k ≠ "fields" := fun hc => htl (hc ▸ hk)
          have hkk : k1 ≠ k := fun hc => hk1 (hc ▸ hk)
          have hgets : dictGet ((k1, v1) :: rest) k = dictGet rest k := by
            simp only [dictGet, if_neg hkk]
          have hTk := hT k hk hn.2
          constructor
          · intro v hv; rw [hgets] at hv; exact hTk.1 v hv
          · intro hv; rw [hgets] at hv
            rw [hTk.2 hv, dictGet_insert_ne _ _ _ _ (Ne.symm hkf)]
        · intro k hk hkf
          rw [hN k hk hkf, dictGet_insert_ne _ _ _ _ (Ne.symm hkf)]
      rcases hd with hnone | ⟨f, hf⟩
      · exact hmain [(k1, v1)] (by simp [List.foldl, squash, hk1, hnone])
      · exact hmain (dictInsert f k1 v1) (by simp [List.foldl, squash, hk1, hf])

theorem dictGet_filter_of_mem (d : Dict) (keep : List String) (k : String) (hk : k ∈ keep) :
    dictGet (d.filter (fun kv => keep.contains kv.1)) k = dictGet d k := by
  induction d with
  | nil => rfl
  | cons p rest ih =>
    obtain ⟨k1, v1⟩ := p
    by_cases h1 : k1 ∈ keep
    · rw [List.filter_cons, if_pos (by simpa using h1)]
      by_cases h2 : k1 = k
      · simp only [dictGet, if_pos h2]
      · simp only [dictGet, if_neg h2]
        exact ih
    · rw [List.filter_cons, if_neg (by simpa using h1)]
      have h2 : k1 ≠ k := fun hc => h1 (hc ▸ hk)
      rw [ih]
      simp only [dictGet, if_neg h2]

theorem keysNodup_filter (d : Dict) (p : String × Value → Bool) (h : keysNodup d) :
    keysNodup (d.filter p) := by
  unfold keysNodup at h ⊢
  exact List.Nodup.sublist ((d.filter_sublist (p := p)).map Prod.fst) h

theorem extract_ok_exists (sh : List String) (d : Dict)
    (he : dictContains d "email" = true) :
    ∃ body, extract sh none d = .ok body := by
  have htl : "fields" ∉ (["member_id", "email"] : List String) := by decide
  obtain ⟨ex, hex, -, -, -⟩ := squash_foldl_ok ["member_id", "email"] htl
    (d.filter (fun kv => (sh ++ ["member_id", "email"]).contains kv.1)) [] (Or.inl rfl)
  refine ⟨ex, ?_⟩
  unfold extract
  rw [he]
  exact hex

theorem extract_eq_fold (sh : List String) (d body : Dict)
    (hex : extract sh none d = .ok body) :
    (d.filter (fun kv => (sh ++ ["member_id", "email"]).contains kv.1)).foldl
      (squash ["member_id", "email"]) (.ok []) = .ok body := by
  unfold extract at hex
  by_cases he : dictContains d "email" = true
  · rw [he] at hex
    exact hex
  · rw [Bool.not_eq_true] at he
    rw [he] at hex
    exact Except.noConfusion hex

theorem extract_get_top (sh : List String) (d body : Dict) (k : String) (v : Value)
    (hk : k ∈ (["member_id", "email"] : List String))
    (hn : keysNodup d) (hkv : dictGet d k = some v)
    (hex : extract sh none d = .ok body) :
    dictGet body k = some v := by
  have htl : "fields" ∉ (["member_id", "email"] : List String) := by decide
  obtain ⟨ex, hfold, -, hT, -⟩ := squash_foldl_ok ["member_id", "email"] htl
    (d.filter (fun kv => (sh ++ ["member_id", "email"]).contains kv.1)) [] (Or.inl rfl)
  have hb := extract_eq_fold sh d body hex
  rw [hfold] at hb
  obtain rfl : ex = body := by injection hb
  have hkeep : k ∈ sh ++ ["member_id", "email"] := List.mem_append_right _ hk
  refine (hT k hk (keysNodup_filter d _ hn)).1 v ?_
  rw [dictGet_filter_of_mem d _ k hkeep]
  exact hkv

theorem extract_get_not_top (sh : List String) (d body : Dict) (k : String)
    (hk : k ∉ (["member_id", "email"] : List String)) (hkf : k ≠ "fields")
    (hex : extract sh none d = .ok body) :
    dictGet body k = none := by
  have htl : "fields" ∉ (["member_id", "email"] : List String) := by decide
  obtain ⟨ex, hfold, -, -, hN⟩ := squash_foldl_ok ["member_id", "email"] htl
    (d.filter (fun kv => (sh ++ ["member_id", "email"]).contains kv.1)) [] (Or.inl rfl)
  have hb := extract_eq_fold sh d body hex
  rw [hfold] at hb
  obtain rfl : ex = body := by injection hb
  exact hN k hk hkf

/-- Adapter fixture whose every response is a truthy boolean. -/
def trueAdapter : Adapter :=
  ⟨fun _ => some (.vbool true), fun _ _ => some (.vbool true), fun _ _ => some (.vbool true)⟩

/-- Adapter fixture whose every response is a 404 None. -/
def noneAdapter : Adapter := ⟨fun _ => none, fun _ _ => none, fun _ _ => none⟩

/-- Adapter fixture whose every get yields an empty sequence. -/
def emptyListAdapter : Adapter :=
  ⟨fun _ => some (.vlist []), fun _ _ => some (.vlist []), fun _ _ => some (.vlist [])⟩

/-- Member fixture without an email field. -/
def memberNoEmail : MemberState := ⟨[("member_id", .vint 7)], [], []⟩

/-- Member fixture with identity, email and a resolved Active status. -/
def memberWithEmail : MemberState :=
  ⟨[("member_id", .vint 55), ("email", .vstr "t@e.org"), ("status", .vstatus .Active)], [], []⟩

/-- C2 (counterexample): HTTP 201 belongs to the success class, yet the
adapter raises ApiRequestFailed on it instead of returning the decoded
JSON, so returning the decoded value for every success status is false. -/
theorem C2_counterexample :
    isHttpSuccess 201 = true ∧
    processResponse ⟨201, .vobj []⟩ = .apiRequestFailed ⟨201, .vobj []⟩ :=
  ⟨rfl, rfl⟩

/-- C2 (amended): the processed result is None exactly when the status is
404; every status strictly above 200 other than 404 — including success
statuses such as 201 — raises ApiRequestFailed carrying the raw response;
and every status at most 200 returns the decoded JSON body. -/
theorem C2_process_response (r r404 rfail rok : HttpResponse)
    (h404 : r404.status_code = 404)
    (hf1 : rfail.status_code ≠ 404) (hf2 : rfail.status_code > 200)
    (hs : rok.status_code ≤ 200) :
    (processResponse r = .notFound ↔ r.status_code = 404) ∧
    processResponse r404 = .notFound ∧
    processResponse rfail = .apiRequestFailed rfail ∧
    processResponse rok = .ok rok.json := by
  refine ⟨⟨?_, ?_⟩, ?_, ?_, ?_⟩
  · intro h
    unfold processResponse at h
    by_cases hc : r.status_code = 404
    · exact hc
    · rw [if_neg hc] at h
      by_cases hc2 : r.status_code > 200
      · rw [if_pos hc2] at h; exact AdapterResult.noConfusion h
      · rw [if_neg hc2] at h; exact AdapterResult.noConfusion h
  · intro h; unfold processResponse; rw [if_pos h]
  · unfold processResponse; rw [if_pos h404]
  · unfold processResponse; rw [if_neg hf1, if_pos hf2]
  · unfold processResponse
    have h1 : rok.status_code ≠ 404 := by omega
    have h2 : ¬rok.status_code > 200 := by omega
    rw [if_neg h1, if_neg h2]

/-- Witness for C2 at statuses 200, 404 and 500. -/
theorem C2_process_response_witness :
    (processResponse ⟨200, .vint 1⟩ = .notFound ↔
      (⟨200, .vint 1⟩ : HttpResponse).status_code = 404) ∧
    processResponse ⟨404, .vint 1⟩ = .notFound ∧
    processResponse ⟨500, .vint 2⟩ = .apiRequestFailed ⟨500, .vint 2⟩ ∧
    processResponse ⟨200, .vint 1⟩ = .ok (⟨200, .vint 1⟩ : HttpResponse).json :=
  C2_process_response ⟨200, .vint 1⟩ ⟨404, .vint 1⟩ ⟨500, .vint 2⟩ ⟨200, .vint 1⟩
    rfl (by decide) (by decide) (by decide)

/-- C7: opt_out on a member without an email field raises
NoMemberEmailError with no transport call and no state change; with an
email field it issues exactly one put to the email-keyed opt-out path,
returns None, and flips the local status to OptOut exactly when the
response is truthy — a falsy response leaves the state untouched. -/
theorem C7_opt_out (A : Adapter) (m m2 : MemberState) (e : Value)
    (h1 : dictGet m.fields "email" = none)
    (h2 : dictGet m2.fields "email" = some e) :
    memberOptOut A m = ⟨[], m, .error .noMemberEmailError⟩ ∧
    (memberOptOut A m2).trace = [.put ("/members/email/optout/" ++ valueToStr e) []] ∧
    (memberOptOut A m2).result = .ok () ∧
    (truthyOpt (A.putResp ("/members/email/optout/" ++ valueToStr e) []) = true →
      (memberOptOut A m2).state =
        { m2 with fields := dictInsert m2.fields "status" (.vstatus .OptOut) }) ∧
    (truthyOpt (A.putResp ("/members/email/optout/" ++ valueToStr e) []) = false →
      (memberOptOut A m2).state = m2) := by
  by_cases ht : truthyOpt (A.putResp ("/members/email/optout/" ++ valueToStr e) []) = true
  · simp [memberOptOut, h1, h2, ht]
  · rw [Bool.not_eq_true] at ht
    simp [memberOptOut, h1, h2, ht]

/-- Witness for C7 on concrete members and a truthy-put adapter. -/
theorem C7_opt_out_witness :
    memberOptOut trueAdapter memberNoEmail = ⟨[], memberNoEmail, .error .noMemberEmailError⟩ ∧
    (memberOptOut trueAdapter memberWithEmail).trace =
      [.put ("/members/email/optout/" ++ valueToStr (.vstr "t@e.org")) []] ∧
    (memberOptOut trueAdapter memberWithEmail).result = .ok () ∧
    (truthyOpt (trueAdapter.putResp
        ("/members/email/optout/" ++ valueToStr (.vstr "t@e.org")) []) = true →
      (memberOptOut trueAdapter memberWithEmail).state =
        { memberWithEmail with
          fields := dictInsert memberWithEmail.fields "status" (.vstatus .OptOut) }) ∧
    (truthyOpt (trueAdapter.putResp
        ("/members/email/optout/" ++ valueToStr (.vstr "t@e.org")) []) = false →
      (memberOptOut trueAdapter memberWithEmail).state = memberWithEmail) :=
  C7_opt_out trueAdapter memberNoEmail memberWithEmail (.vstr "t@e.org") rfl rfl

/-- C9: get_opt_out_detail raises NoMemberIdError when the identity field
is absent; with an identity field and a current status other than the
OptOut singleton it returns an empty list with no transport call; with
status OptOut it issues exactly one get to the opt-out history path and
returns the decoded response verbatim. -/
theorem C9_opt_out_detail (A : Adapter) (m1 m2 m3 : MemberState) (mid2 mid3 sv : Value)
    (h1 : dictGet m1.fields "member_id" = none)
    (h2a : dictGet m2.fields "member_id" = some mid2)
    (h2b : dictGet m2.fields "status" = some sv)
    (h2c : sv ≠ .vstatus .OptOut)
    (h3a : dictGet m3.fields "member_id" = some mid3)
    (h3b : dictGet m3.fields "status" = some (.vstatus .OptOut)) :
    getOptOutDetail A m1 = ⟨[], m1, .error .noMemberIdError⟩ ∧
    getOptOutDetail A m2 = ⟨[], m2, .ok (some (.vlist []))⟩ ∧
    getOptOutDetail A m3 =
      ⟨[.get ("/members/" ++ valueToStr mid3 ++ "/optout")], m3,
        .ok (A.getResp ("/members/" ++ valueToStr mid3 ++ "/optout"))⟩ := by
  refine ⟨?_, ?_, ?_⟩
  · simp [getOptOutDetail, h1]
  · unfold getOptOutDetail
    rw [h2a, h2b]
    rcases sv with n | s | b | st | l | f <;> try rfl
    rcases st <;> first | rfl | exact absurd rfl h2c
  · unfold getOptOutDetail
    rw [h3a, h3b]

/-- Witness for C9 on three concrete members. -/
theorem C9_opt_out_detail_witness :
    getOptOutDetail trueAdapter ⟨[("email", .vstr "x")], [], []⟩ =
      ⟨[], ⟨[("email", .vstr "x")], [], []⟩, .error .noMemberIdError⟩ ∧
    getOptOutDetail trueAdapter memberWithEmail =
      ⟨[], memberWithEmail, .ok (some (.vlist []))⟩ ∧
    getOptOutDetail trueAdapter ⟨[("member_id", .vint 9), ("status", .vstatus .OptOut)], [], []⟩ =
      ⟨[.get ("/members/" ++ valueToStr (.vint 9) ++ "/optout")],
        ⟨[("member_id", .vint 9), ("status", .vstatus .OptOut)], [], []⟩,
        .ok (trueAdapter.getResp ("/members/" ++ valueToStr (.vint 9) ++ "/optout"))⟩ :=
  C9_opt_out_detail trueAdapter ⟨[("email", .vstr "x")], [], []⟩ memberWithEmail
    ⟨[("member_id", .vint 9), ("status", .vstatus .OptOut)], [], []⟩
    (.vint 55) (.vint 9) (.vstatus .Active) rfl rfl rfl
    (fun h => by injection h with h2; exact Status.noConfusion h2) rfl rfl

/-- C10: when the transport get for a member collection returns an empty
sequence, the cache stays empty (the state is unchanged), and a second
fetch_all issues another get — a fetch yielding zero entities leaves the
collection unpopulated rather than populated-and-empty. Holds for both the
groups and the mailings collection. -/
theorem C10_empty_fetch (A : Adapter) (m : MemberState) (mid : Value)
    (hmid : dictGet m.fields "member_id" = some mid)
    (hg : m.groupsCache = []) (hm : m.mailingsCache = [])
    (hrg : A.getResp ("/members/" ++ valueToStr mid ++ "/groups") = some (.vlist []))
    (hrm : A.getResp ("/members/" ++ valueToStr mid ++ "/mailings") = some (.vlist [])) :
    ((groupsFetchAll A m).state = m ∧
     (groupsFetchAll A m).trace = [.get ("/members/" ++ valueToStr mid ++ "/groups")] ∧
     (groupsFetchAll A (groupsFetchAll A m).state).trace =
       [.get ("/members/" ++ valueToStr mid ++ "/groups")]) ∧
    ((mailingsFetchAll A m).state = m ∧
     (mailingsFetchAll A m).trace = [.get ("/members/" ++ valueToStr mid ++ "/mailings")] ∧
     (mailingsFetchAll A (mailingsFetchAll A m).state).trace =
       [.get ("/members/" ++ valueToStr mid ++ "/mailings")]) := by
  obtain ⟨mf, mg, mm⟩ := m
  simp only at hg hm
  subst hg
  subst hm
  have hc : dictContains mf "member_id" = true := by
    unfold dictContains; rw [hmid]; rfl
  have hG : groupsFetchAll A ⟨mf, [], []⟩ =
      ⟨[.get ("/members/" ++ valueToStr mid ++ "/groups")], ⟨mf, [], []⟩, .ok []⟩ := by
    unfold groupsFetchAll
    rw [hc, hmid]
    simp only [Option.getD_some, Bool.not_true, List.isEmpty_nil]
    rw [hrg]
    rfl
  have hM : mailingsFetchAll A ⟨mf, [], []⟩ =
      ⟨[.get ("/members/" ++ valueToStr mid ++ "/mailings")], ⟨mf, [], []⟩, .ok []⟩ := by
    unfold mailingsFetchAll
    rw [hc, hmid]
    simp only [Option.getD_some, Bool.not_true, List.isEmpty_nil]
    rw [hrm]
    rfl
  refine ⟨⟨?_, ?_, ?_⟩, ?_, ?_, ?_⟩ <;> simp [hG, hM]

/-- Witness for C10 on a concrete member and an empty-sequence adapter. -/
theorem C10_empty_fetch_witness :
    ((groupsFetchAll emptyListAdapter ⟨[("member_id", .vint 5)], [], []⟩).state =
        ⟨[("member_id", .vint 5)], [], []⟩ ∧
     (groupsFetchAll emptyListAdapter ⟨[("member_id", .vint 5)], [], []⟩).trace =
        [.get ("/members/" ++ valueToStr (.vint 5) ++ "/groups")] ∧
     (groupsFetchAll emptyListAdapter
        (groupsFetchAll emptyListAdapter ⟨[("member_id", .vint 5)], [], []⟩).state).trace =
        [.get ("/members/" ++ valueToStr (.vint 5) ++ "/groups")]) ∧
    ((mailingsFetchAll emptyListAdapter ⟨[("member_id", .vint 5)], [], []⟩).state =
        ⟨[("member_id", .vint 5)], [], []⟩ ∧
     (mailingsFetchAll emptyListAdapter ⟨[("member_id", .vint 5)], [], []⟩).trace =
        [.get ("/members/" ++ valueToStr (.vint 5) ++ "/mailings")] ∧
     (mailingsFetchAll emptyListAdapter
        (mailingsFetchAll emptyListAdapter ⟨[("member_id", .vint 5)], [], []⟩).state).trace =
        [.get ("/members/" ++ valueToStr (.vint 5) ++ "/mailings")]) :=
  C10_empty_fetch emptyListAdapter ⟨[("member_id", .vint 5)], [], []⟩ (.vint 5)
    rfl rfl rfl rfl rfl

/-- C4: on the update path, a falsy put response makes save raise
MemberUpdateError after exactly the one put call, and the member state —
its field mapping in particular — is exactly what it was before. -/
theorem C4_update_failure (A : Adapter) (sh : List String) (m : MemberState)
    (mid : Value) (body : Dict)
    (hmid : dictGet m.fields "member_id" = some mid)
    (hbody : updateBody sh m.fields = .ok body)
    (hresp : truthyOpt (A.putResp ("/members/" ++ valueToStr mid) body) = false) :
    memberSave A sh m none =
      ⟨[.put ("/members/" ++ valueToStr mid) body], m, .error .memberUpdateError⟩ := by
  have hc : dictContains m.fields "member_id" = true := by
    unfold dictContains; rw [hmid]; rfl
  unfold memberSave memberUpdate
  rw [hc, hmid, hbody]
  simp [hresp]

/-- Witness for C4 on a concrete member against an always-404 adapter. -/
theorem C4_update_failure_witness :
    memberSave noneAdapter [] memberWithEmail none =
      ⟨[.put ("/members/" ++ valueToStr (.vint 55))
          [("member_id", .vint 55), ("email", .vstr "t@e.org"), ("status_to", .vstr "a")]],
        memberWithEmail, .error .memberUpdateError⟩ :=
  C4_update_failure noneAdapter [] memberWithEmail (.vint 55)
    [("member_id", .vint 55), ("email", .vstr "t@e.org"), ("status_to", .vstr "a")]
    rfl rfl rfl

/-- C6: on the create path, once the post returns an outcome object, the
member's local status is set to the Status resolved from the outcome's
status code, and the server-issued member_id is copied into the local
fields exactly when the outcome's added flag is truthy — with a falsy
added flag the member still has no identity field. -/
theorem C6_create_response (A : Adapter) (sh : List String) (m : MemberState)
    (body outcome : Dict) (c : String) (st : Status) (av mid : Value)
    (hnoid : dictGet m.fields "member_id" = none)
    (hgroups : m.groupsCache = [])
    (hex : extract sh none m.fields = .ok body)
    (hresp : A.postResp "/members/add" body = some (.vobj outcome))
    (hstat : dictGet outcome "status" = some (.vstr c))
    (hfac : Status.factory? c = some st)
    (hadded : dictGet outcome "added" = some av)
    (hmid : truthy av = true → dictGet outcome "member_id" = some mid) :
    dictGet (memberSave A sh m none).state.fields "status" = some (.vstatus st) ∧
    (truthy av = true →
      dictGet (memberSave A sh m none).state.fields "member_id" = some mid) ∧
    (truthy av = false →
      dictGet (memberSave A sh m none).state.fields "member_id" = none) ∧
    (memberSave A sh m none).result = .ok () := by
  have hc : dictContains m.fields "member_id" = false := by
    unfold dictContains; rw [hnoid]; rfl
  by_cases ha : truthy av = true
  · have hmid2 := hmid ha
    have hsave : memberSave A sh m none =
        ⟨[.post "/members/add" body],
          { m with
            fields := dictInsert (dictInsert m.fields "status" (.vstatus st)) "member_id" mid },
          .ok ()⟩ := by
      unfold memberSave memberAdd
      rw [hc, hex]
      rw [hgroups]
      simp [hgroups, hresp, hstat, hfac, hadded, ha, hmid2]
    rw [hsave]
    refine ⟨?_, fun _ => ?_, fun hf => ?_, rfl⟩
    · rw [dictGet_insert_ne _ _ _ _ (by decide), dictGet_insert_self]
    · exact dictGet_insert_self _ _ _
    · rw [ha] at hf; exact Bool.noConfusion hf
  · rw [Bool.not_eq_true] at ha
    have hsave : memberSave A sh m none =
        ⟨[.post "/members/add" body],
          { m with fields := dictInsert m.fields "status" (.vstatus st) }, .ok ()⟩ := by
      unfold memberSave memberAdd
      rw [hc, hex]
      rw [hgroups]
      simp [hgroups, hresp, hstat, hfac, hadded, ha]
    rw [hsave]
    refine ⟨?_, fun ht => ?_, fun _ => ?_, rfl⟩
    · exact dictGet_insert_self _ _ _
    · rw [ha] at ht; exact Bool.noConfusion ht
    · rw [dictGet_insert_ne _ _ _ _ (by decide)]
      exact hnoid

/-- Adapter fixture answering the create post with an added outcome:
added true, member_id 55, status code a (spec scenario 3). -/
def createOkAdapter : Adapter :=
  ⟨fun _ => some (.vlist []),
   fun _ _ => some (.vobj [("added", .vbool true), ("member_id", .vint 55), ("status", .vstr "a")]),
   fun _ _ => some (.vbool true)⟩

/-- Witness for C6: spec scenario 3 — the add response with added true,
member_id 55 and status code a leaves the member with identity 55 and
status Active. -/
theorem C6_create_response_witness :
    dictGet (memberSave createOkAdapter []
        ⟨[("email", .vstr "new@example.com")], [], []⟩ none).state.fields
      "status" = some (.vstatus .Active) ∧
    (truthy (.vbool true) = true →
      dictGet (memberSave createOkAdapter []
          ⟨[("email", .vstr "new@example.com")], [], []⟩ none).state.fields
        "member_id" = some (.vint 55)) ∧
    (truthy (.vbool true) = false →
      dictGet (memberSave createOkAdapter []
          ⟨[("email", .vstr "new@example.com")], [], []⟩ none).state.fields
        "member_id" = none) ∧
    (memberSave createOkAdapter []
        ⟨[("email", .vstr "new@example.com")], [], []⟩ none).result = .ok () :=
  C6_create_response createOkAdapter [] ⟨[("email", .vstr "new@example.com")], [], []⟩
    [("email", .vstr "new@example.com")]
    [("added", .vbool true), ("member_id", .vint 55), ("status", .vstr "a")]
    "a" .Active (.vbool true) (.vint 55)
    rfl rfl rfl rfl rfl rfl rfl (fun _ => rfl)

/-- Member fixture with identity, email and the Forwarded status, which is
not a valid transition target. -/
def memberForwarded : MemberState :=
  ⟨[("member_id", .vint 6), ("email", .vstr "f@e.org"), ("status", .vstatus .Forwarded)], [], []⟩

/-- C3: the update body carries status_to equal to the current status's
wire code exactly when that status is Active, Error or OptOut; for any
other status (such as Forwarded) the status_to key is absent from the
body put to the identity-scoped path. -/
theorem C3_status_to_gate (A : Adapter) (sh : List String) (m m2 : MemberState)
    (mid mid2 : Value) (ex ex2 : Dict) (st st2 : Status)
    (hmid : dictGet m.fields "member_id" = some mid)
    (hex : extract sh none m.fields = .ok ex)
    (hst : dictGet m.fields "status" = some (.vstatus st))
    (hin : st = .Active ∨ st = .Error ∨ st = .OptOut)
    (hmid2 : dictGet m2.fields "member_id" = some mid2)
    (hex2 : extract sh none m2.fields = .ok ex2)
    (hst2 : dictGet m2.fields "status" = some (.vstatus st2))
    (hout : ¬(st2 = .Active ∨ st2 = .Error ∨ st2 = .OptOut)) :
    (memberUpdate A sh m).trace =
      [.put ("/members/" ++ valueToStr mid) (dictInsert ex "status_to" (.vstr st.getCode))] ∧
    dictGet (dictInsert ex "status_to" (.vstr st.getCode)) "status_to" =
      some (.vstr st.getCode) ∧
    (memberUpdate A sh m2).trace = [.put ("/members/" ++ valueToStr mid2) ex2] ∧
    dictGet ex2 "status_to" = none := by
  have hub : updateBody sh m.fields = .ok (dictInsert ex "status_to" (.vstr st.getCode)) := by
    unfold updateBody
    rw [hex, hst]
    simp [hin]
  have hub2 : updateBody sh m2.fields = .ok ex2 := by
    unfold updateBody
    rw [hex2, hst2]
    simp [hout]
  refine ⟨?_, dictGet_insert_self _ _ _, ?_, ?_⟩
  · unfold memberUpdate
    rw [hmid, hub]
    by_cases ht : truthyOpt (A.putResp ("/members/" ++ valueToStr mid)
        (dictInsert ex "status_to" (.vstr st.getCode))) = true
    · simp [ht]
    · rw [Bool.not_eq_true] at ht
      simp [ht]
  · unfold memberUpdate
    rw [hmid2, hub2]
    by_cases ht : truthyOpt (A.putResp ("/members/" ++ valueToStr mid2) ex2) = true
    · simp [ht]
    · rw [Bool.not_eq_true] at ht
      simp [ht]
  · exact extract_get_not_top sh m2.fields ex2 "status_to" (by decide) (by decide) hex2

/-- Witness for C3 on an Active member and a Forwarded member. -/
theorem C3_status_to_gate_witness :
    (memberUpdate trueAdapter [] memberWithEmail).trace =
      [.put ("/members/" ++ valueToStr (.vint 55))
        (dictInsert [("member_id", .vint 55), ("email", .vstr "t@e.org")]
          "status_to" (.vstr Status.Active.getCode))] ∧
    dictGet (dictInsert [("member_id", .vint 55), ("email", .vstr "t@e.org")]
        "status_to" (.vstr Status.Active.getCode)) "status_to" =
      some (.vstr Status.Active.getCode) ∧
    (memberUpdate trueAdapter [] memberForwarded).trace =
      [.put ("/members/" ++ valueToStr (.vint 6))
        [("member_id", .vint 6), ("email", .vstr "f@e.org")]] ∧
    dictGet [("member_id", .vint 6), ("email", .vstr "f@e.org")] "status_to" = none :=
  C3_status_to_gate trueAdapter [] memberWithEmail memberForwarded
    (.vint 55) (.vint 6)
    [("member_id", .vint 55), ("email", .vstr "t@e.org")]
    [("member_id", .vint 6), ("email", .vstr "f@e.org")]
    .Active .Forwarded
    rfl rfl rfl (Or.inl rfl) rfl rfl rfl (by decide)

theorem groupsFetchAll_trace_shape (A : Adapter) (m : MemberState) :
    (groupsFetchAll A m).trace = [] ∨
    ∃ p, (groupsFetchAll A m).trace = [.get p] := by
  unfold groupsFetchAll
  dsimp only
  repeat' split
  all_goals first
    | exact Or.inl rfl
    | exact Or.inr ⟨_, rfl⟩

theorem groupsFetchAll_trace_get (A : Adapter) (m : MemberState) :
    ∀ call ∈ (groupsFetchAll A m).trace, isGetCall call = true := by
  intro call hcall
  rcases groupsFetchAll_trace_shape A m with h | ⟨p, h⟩ <;> rw [h] at hcall
  · simp at hcall
  · rw [List.mem_singleton] at hcall
    subst hcall
    rfl

theorem memberAdd_trace_shape (A : Adapter) (sh : List String) (m : MemberState)
    (sfid : Option Value) :
    (memberAdd A sh m sfid).trace = [] ∨
    (∃ d, (memberAdd A sh m sfid).trace =
      (groupsFetchAll A m).trace ++ [.post "/members/add" d]) ∨
    (memberAdd A sh m sfid).trace = (groupsFetchAll A m).trace ∨
    ∃ d, (memberAdd A sh m sfid).trace = [.post "/members/add" d] := by
  unfold memberAdd
  dsimp only
  split
  · exact Or.inl rfl
  · by_cases hg : m.groupsCache.isEmpty = true
    · simp only [hg, if_true]
      repeat' split
      all_goals exact Or.inr (Or.inr (Or.inr ⟨_, rfl⟩))
    · rw [Bool.not_eq_true] at hg
      simp only [hg, Bool.false_eq_true, if_false]
      repeat' split
      all_goals first
        | exact Or.inr (Or.inr (Or.inl rfl))
        | exact Or.inr (Or.inl ⟨_, rfl⟩)

theorem memberAdd_no_put (A : Adapter) (sh : List String) (m : MemberState)
    (sfid : Option Value) :
    ∀ call ∈ (memberAdd A sh m sfid).trace, isPutCall call = false := by
  intro call hcall
  rcases memberAdd_trace_shape A sh m sfid with h | ⟨d, h⟩ | h | ⟨d, h⟩ <;> rw [h] at hcall
  · simp at hcall
  · rw [List.mem_append] at hcall
    rcases hcall with hcall | hcall
    · have hget := groupsFetchAll_trace_get A m call hcall
      cases call <;> simp_all [isGetCall, isPutCall]
    · rw [List.mem_singleton] at hcall
      subst hcall
      rfl
  · have hget := groupsFetchAll_trace_get A m call hcall
    cases call <;> simp_all [isGetCall, isPutCall]
  · rw [List.mem_singleton] at hcall
    subst hcall
    rfl

theorem memberUpdate_trace_shape (A : Adapter) (sh : List String) (m : MemberState) :
    (memberUpdate A sh m).trace = [] ∨
    ∃ p d, (memberUpdate A sh m).trace = [.put p d] := by
  unfold memberUpdate
  dsimp only
  repeat' split
  all_goals first
    | exact Or.inl rfl
    | exact Or.inr ⟨_, _, rfl⟩

theorem memberUpdate_no_post (A : Adapter) (sh : List String) (m : MemberState) :
    ∀ call ∈ (memberUpdate A sh m).trace, isPostCall call = false := by
  intro call hcall
  rcases memberUpdate_trace_shape A sh m with h | ⟨p, d, h⟩ <;> rw [h] at hcall
  · simp at hcall
  · rw [List.mem_singleton] at hcall
    subst hcall
    rfl

/-- C1 (counterexample): a member whose mapping has an identity field but
no email raises NoMemberEmailError from extraction before the transport is
touched, so its save performs zero update calls — not exactly one. -/
theorem C1_counterexample :
    (memberSave trueAdapter [] memberNoEmail none).trace = [] ∧
    (memberSave trueAdapter [] memberNoEmail none).result = .error .noMemberEmailError ∧
    (memberSave trueAdapter [] memberNoEmail none).trace.countP isPutCall ≠ 1 := by
  refine ⟨rfl, rfl, ?_⟩
  decide

/-- C1 (amended): save dispatches on the identity field. Without it — and
with an email field present and the groups cache empty — save makes
exactly one create post and no put; with it — and with a well-formed
update body, which needs email and status fields — save makes exactly the
one put to the identity-scoped path and no post. Unconditionally, the
create path never issues a put and the update path never issues a post;
when extraction fails, save raises before any create or update call. -/
theorem C1_save_dispatch (A : Adapter) (sh : List String) (sfid : Option Value)
    (m1 m2 : MemberState) (e1 body : Dict) (mid : Value)
    (h1a : dictGet m1.fields "member_id" = none)
    (h1b : extract sh none m1.fields = .ok e1)
    (h1c : m1.groupsCache = [])
    (h2a : dictGet m2.fields "member_id" = some mid)
    (h2b : updateBody sh m2.fields = .ok body) :
    ((memberSave A sh m1 sfid).trace.countP isCreateCall = 1 ∧
     (memberSave A sh m1 sfid).trace.countP isPutCall = 0) ∧
    ((memberSave A sh m2 sfid).trace = [.put ("/members/" ++ valueToStr mid) body] ∧
     (memberSave A sh m2 sfid).trace.countP isPostCall = 0) ∧
    (∀ m3 : MemberState,
      (dictGet m3.fields "member_id" = none →
        (memberSave A sh m3 sfid).trace.countP isPutCall = 0) ∧
      (∀ v, dictGet m3.fields "member_id" = some v →
        (memberSave A sh m3 sfid).trace.countP isPostCall = 0)) := by
  have hc1 : dictContains m1.fields "member_id" = false := by
    unfold dictContains; rw [h1a]; rfl
  have hc2 : dictContains m2.fields "member_id" = true := by
    unfold dictContains; rw [h2a]; rfl
  have hsave1 : memberSave A sh m1 sfid = memberAdd A sh m1 sfid := by
    unfold memberSave; rw [hc1]; rfl
  have hsave2 : memberSave A sh m2 sfid = memberUpdate A sh m2 := by
    unfold memberSave; rw [hc2]; rfl
  refine ⟨?_, ?_, ?_⟩
  · have htr1 : ∃ d, (memberAdd A sh m1 sfid).trace = [.post "/members/add" d] := by
      unfold memberAdd
      dsimp only
      rw [h1b]
      simp only [h1c, List.isEmpty_nil, if_true]
      repeat' split
      all_goals exact ⟨_, rfl⟩
    obtain ⟨d1, hd1⟩ := htr1
    rw [hsave1, hd1]
    constructor
    · simp [List.countP_cons, isCreateCall]
    · simp [List.countP_cons, isPutCall]
  · have htr2 : (memberUpdate A sh m2).trace =
        [.put ("/members/" ++ valueToStr mid) body] := by
      unfold memberUpdate
      rw [h2a, h2b]
      by_cases ht : truthyOpt (A.putResp ("/members/" ++ valueToStr mid) body) = true
      · simp [ht]
      · rw [Bool.not_eq_true] at ht
        simp [ht]
    rw [hsave2, htr2]
    exact ⟨rfl, by simp [List.countP_cons, isPostCall]⟩
  · intro m3
    constructor
    · intro h3
      have hc3 : dictContains m3.fields "member_id" = false := by
        unfold dictContains; rw [h3]; rfl
      have hs3 : memberSave A sh m3 sfid = memberAdd A sh m3 sfid := by
        unfold memberSave; rw [hc3]; rfl
      rw [hs3, List.countP_eq_zero]
      intro c hc
      rw [memberAdd_no_put A sh m3 sfid c hc]
      simp
    · intro v h3
      have hc3 : dictContains m3.fields "member_id" = true := by
        unfold dictContains; rw [h3]; rfl
      have hs3 : memberSave A sh m3 sfid = memberUpdate A sh m3 := by
        unfold memberSave; rw [hc3]; rfl
      rw [hs3, List.countP_eq_zero]
      intro c hc
      rw [memberUpdate_no_post A sh m3 c hc]
      simp

/-- Witness for C1: a fresh member saving through a create-responding
adapter makes one create post and no put; a hydrated member makes one put
and no post. -/
theorem C1_save_dispatch_witness :
    ((memberSave createOkAdapter [] ⟨[("email", .vstr "new@example.com")], [], []⟩
        none).trace.countP isCreateCall = 1 ∧
     (memberSave createOkAdapter [] ⟨[("email", .vstr "new@example.com")], [], []⟩
        none).trace.countP isPutCall = 0) ∧
    ((memberSave createOkAdapter [] memberWithEmail none).trace =
        [.put ("/members/" ++ valueToStr (.vint 55))
          [("member_id", .vint 55), ("email", .vstr "t@e.org"), ("status_to", .vstr "a")]] ∧
     (memberSave createOkAdapter [] memberWithEmail none).trace.countP isPostCall = 0) :=
  ⟨(C1_save_dispatch createOkAdapter [] none
      ⟨[("email", .vstr "new@example.com")], [], []⟩ memberWithEmail
      [("email", .vstr "new@example.com")]
      [("member_id", .vint 55), ("email", .vstr "t@e.org"), ("status_to", .vstr "a")]
      (.vint 55) rfl rfl rfl rfl rfl).1,
   (C1_save_dispatch createOkAdapter [] none
      ⟨[("email", .vstr "new@example.com")], [], []⟩ memberWithEmail
      [("email", .vstr "new@example.com")]
      [("member_id", .vint 55), ("email", .vstr "t@e.org"), ("status_to", .vstr "a")]
      (.vint 55) rfl rfl rfl rfl rfl).2.1⟩

theorem groupsFetchAll_populated (A : Adapter) (m : MemberState)
    (h : m.groupsCache ≠ []) :
    (groupsFetchAll A m).state = m ∧ (groupsFetchAll A m).trace = [] := by
  unfold groupsFetchAll
  dsimp only
  by_cases hc : (!dictContains m.fields "member_id") = true
  · rw [if_pos hc]
    exact ⟨rfl, rfl⟩
  · rw [if_neg hc]
    have hne : (!m.groupsCache.isEmpty) = true := by
      rcases hx : m.groupsCache with _ | ⟨c0, cr⟩
      · exact absurd hx h
      · rfl
    rw [if_pos hne]
    exact ⟨rfl, rfl⟩

theorem mailingsFetchAll_populated (A : Adapter) (m : MemberState)
    (h : m.mailingsCache ≠ []) :
    (mailingsFetchAll A m).state = m ∧ (mailingsFetchAll A m).trace = [] := by
  unfold mailingsFetchAll
  dsimp only
  by_cases hc : (!dictContains m.fields "member_id") = true
  · rw [if_pos hc]
    exact ⟨rfl, rfl⟩
  · rw [if_neg hc]
    have hne : (!m.mailingsCache.isEmpty) = true := by
      rcases hx : m.mailingsCache with _ | ⟨c0, cr⟩
      · exact absurd hx h
      · rfl
    rw [if_pos hne]
    exact ⟨rfl, rfl⟩

theorem memberAdd_caches (A : Adapter) (sh : List String) (m : MemberState)
    (sfid : Option Value) :
    (memberAdd A sh m sfid).state.groupsCache = m.groupsCache ∧
    (memberAdd A sh m sfid).state.mailingsCache = m.mailingsCache := by
  unfold memberAdd
  dsimp only
  split
  · exact ⟨rfl, rfl⟩
  · by_cases hg : m.groupsCache.isEmpty = true
    · simp only [hg, if_true]
      repeat' split
      all_goals exact ⟨rfl, rfl⟩
    · rw [Bool.not_eq_true] at hg
      have hne : m.groupsCache ≠ [] := by
        intro hx; rw [hx] at hg; exact Bool.noConfusion hg
      obtain ⟨hst, -⟩ := groupsFetchAll_populated A m hne
      simp only [hg, Bool.false_eq_true, if_false]
      repeat' split
      all_goals simp [hst]

theorem memberUpdate_state (A : Adapter) (sh : List String) (m : MemberState) :
    (memberUpdate A sh m).state = m := by
  unfold memberUpdate
  dsimp only
  repeat' split
  all_goals rfl

theorem memberSave_caches (A : Adapter) (sh : List String) (m : MemberState)
    (sfid : Option Value) :
    (memberSave A sh m sfid).state.groupsCache = m.groupsCache ∧
    (memberSave A sh m sfid).state.mailingsCache = m.mailingsCache := by
  unfold memberSave
  by_cases hc : (!dictContains m.fields "member_id") = true
  · rw [if_pos hc]
    exact memberAdd_caches A sh m sfid
  · rw [if_neg hc, memberUpdate_state]
    exact ⟨rfl, rfl⟩

theorem memberOptOut_caches (A : Adapter) (m : MemberState) :
    (memberOptOut A m).state.groupsCache = m.groupsCache ∧
    (memberOptOut A m).state.mailingsCache = m.mailingsCache := by
  unfold memberOptOut
  dsimp only
  repeat' split
  all_goals exact ⟨rfl, rfl⟩

theorem getOptOutDetail_state (A : Adapter) (m : MemberState) :
    (getOptOutDetail A m).state = m := by
  unfold getOptOutDetail
  repeat' split
  all_goals rfl

/-- C5 (counterexample): when the first fetch decodes an empty sequence,
the cache stays unpopulated and two successive fetch_all calls on a member
with an identity field make two transport gets, not exactly one. -/
theorem C5_counterexample :
    (groupsFetchAll emptyListAdapter ⟨[("member_id", .vint 5)], [], []⟩).trace ++
      (groupsFetchAll emptyListAdapter
        (groupsFetchAll emptyListAdapter ⟨[("member_id", .vint 5)], [], []⟩).state).trace =
      [.get "/members/5/groups", .get "/members/5/groups"] ∧
    ((groupsFetchAll emptyListAdapter ⟨[("member_id", .vint 5)], [], []⟩).trace ++
      (groupsFetchAll emptyListAdapter
        (groupsFetchAll emptyListAdapter ⟨[("member_id", .vint 5)], [], []⟩).state).trace).length
      ≠ 1 := by
  refine ⟨rfl, ?_⟩
  decide

/-- C5 (amended): provided the first fetch decodes at least one entity,
two successive fetch_all calls from an unpopulated cache make exactly one
get in total and the second returns the cached mapping unchanged — for
groups and mailings alike; a fetch decoding zero entities leaves the
collection unpopulated (the case the counterexample exhibits). Once
populated, no operation of this layer — save, opt_out, get_opt_out_detail
or either fetch_all — invalidates or refreshes either cache. -/
theorem C5_fetch_memoization (A : Adapter) (m : MemberState) (mid : Value)
    (xs ys : List Value) (c cm : List (Value × Dict))
    (hmid : dictGet m.fields "member_id" = some mid)
    (hg : m.groupsCache = []) (hm : m.mailingsCache = [])
    (hrespG : A.getResp ("/members/" ++ valueToStr mid ++ "/groups") = some (.vlist xs))
    (hbuildG : buildCache "group_name" xs = .ok c) (hcne : c ≠ [])
    (hrespM : A.getResp ("/members/" ++ valueToStr mid ++ "/mailings") = some (.vlist ys))
    (hbuildM : buildCache "mailing_id" ys = .ok cm) (hcmne : cm ≠ []) :
    (groupsFetchAll A m).trace = [.get ("/members/" ++ valueToStr mid ++ "/groups")] ∧
    (groupsFetchAll A m).result = .ok c ∧
    (groupsFetchAll A m).state.groupsCache = c ∧
    (groupsFetchAll A (groupsFetchAll A m).state).trace = [] ∧
    (groupsFetchAll A (groupsFetchAll A m).state).result = .ok c ∧
    (groupsFetchAll A (groupsFetchAll A m).state).state = (groupsFetchAll A m).state ∧
    (mailingsFetchAll A m).trace = [.get ("/members/" ++ valueToStr mid ++ "/mailings")] ∧
    (mailingsFetchAll A m).result = .ok cm ∧
    (mailingsFetchAll A m).state.mailingsCache = cm ∧
    (mailingsFetchAll A (mailingsFetchAll A m).state).trace = [] ∧
    (mailingsFetchAll A (mailingsFetchAll A m).state).result = .ok cm ∧
    (mailingsFetchAll A (mailingsFetchAll A m).state).state = (mailingsFetchAll A m).state ∧
    (∀ (B : Adapter) (sh : List String) (sf : Option Value) (mp : MemberState),
      (memberSave B sh mp sf).state.groupsCache = mp.groupsCache ∧
      (memberSave B sh mp sf).state.mailingsCache = mp.mailingsCache ∧
      (memberOptOut B mp).state.groupsCache = mp.groupsCache ∧
      (memberOptOut B mp).state.mailingsCache = mp.mailingsCache ∧
      (getOptOutDetail B mp).state = mp ∧
      (mp.groupsCache ≠ [] →
        (groupsFetchAll B mp).state = mp ∧ (groupsFetchAll B mp).trace = []) ∧
      (mp.mailingsCache ≠ [] →
        (mailingsFetchAll B mp).state = mp ∧ (mailingsFetchAll B mp).trace = [])) := by
  have hc : dictContains m.fields "member_id" = true := by
    unfold dictContains; rw [hmid]; rfl
  have h1 : groupsFetchAll A m =
      ⟨[.get ("/members/" ++ valueToStr mid ++ "/groups")],
        { m with groupsCache := c }, .ok c⟩ := by
    unfold groupsFetchAll
    rw [hc, hmid]
    simp [hg, hrespG, hbuildG]
  have h1m : mailingsFetchAll A m =
      ⟨[.get ("/members/" ++ valueToStr mid ++ "/mailings")],
        { m with mailingsCache := cm }, .ok cm⟩ := by
    unfold mailingsFetchAll
    rw [hc, hmid]
    simp [hm, hrespM, hbuildM]
  have h2 : groupsFetchAll A { m with groupsCache := c } =
      ⟨[], { m with groupsCache := c }, .ok c⟩ := by
    rcases c with _ | ⟨c0, cr⟩
    · exact absurd rfl hcne
    · unfold groupsFetchAll
      dsimp only
      rw [hc, hmid]
      simp
  have h2m : mailingsFetchAll A { m with mailingsCache := cm } =
      ⟨[], { m with mailingsCache := cm }, .ok cm⟩ := by
    rcases cm with _ | ⟨c0, cr⟩
    · exact absurd rfl hcmne
    · unfold mailingsFetchAll
      dsimp only
      rw [hc, hmid]
      simp
  refine ⟨by rw [h1], by rw [h1], by rw [h1], ?_, ?_, ?_, by rw [h1m], by rw [h1m],
    by rw [h1m], ?_, ?_, ?_, ?_⟩
  · rw [h1]; dsimp only; rw [h2]
  · rw [h1]; dsimp only; rw [h2]
  · rw [h1]; dsimp only; rw [h2]
  · rw [h1m]; dsimp only; rw [h2m]
  · rw [h1m]; dsimp only; rw [h2m]
  · rw [h1m]; dsimp only; rw [h2m]
  · intro B sh sf mp
    exact ⟨(memberSave_caches B sh mp sf).1, (memberSave_caches B sh mp sf).2,
      (memberOptOut_caches B mp).1, (memberOptOut_caches B mp).2,
      getOptOutDetail_state B mp,
      fun h => groupsFetchAll_populated B mp h,
      fun h => mailingsFetchAll_populated B mp h⟩

/-- Adapter fixture whose gets return one-element entity sequences for
both member relations. -/
def oneEntityAdapter : Adapter :=
  ⟨fun p => if p = "/members/5/mailings"
            then some (.vlist [.vobj [("mailing_id", .vint 321)]])
            else some (.vlist [.vobj [("group_name", .vstr "VIP"), ("group_id", .vint 1)]]),
   fun _ _ => none, fun _ _ => none⟩

/-- Witness for C5: spec scenario 2 — one VIP group entity is fetched
once, and the second fetch_all serves the cache with no further get. -/
theorem C5_fetch_memoization_witness :
    (groupsFetchAll oneEntityAdapter ⟨[("member_id", .vint 5)], [], []⟩).trace =
      [.get ("/members/" ++ valueToStr (.vint 5) ++ "/groups")] ∧
    (groupsFetchAll oneEntityAdapter
        (groupsFetchAll oneEntityAdapter ⟨[("member_id", .vint 5)], [], []⟩).state).trace = [] ∧
    (groupsFetchAll oneEntityAdapter
        (groupsFetchAll oneEntityAdapter ⟨[("member_id", .vint 5)], [], []⟩).state).result =
      .ok [(.vstr "VIP", [("group_name", .vstr "VIP"), ("group_id", .vint 1)])] :=
  (fun h => ⟨h.1, h.2.2.2.1, h.2.2.2.2.1⟩)
    (C5_fetch_memoization oneEntityAdapter ⟨[("member_id", .vint 5)], [], []⟩ (.vint 5)
      [.vobj [("group_name", .vstr "VIP"), ("group_id", .vint 1)]]
      [.vobj [("mailing_id", .vint 321)]]
      [(.vstr "VIP", [("group_name", .vstr "VIP"), ("group_id", .vint 1)])]
      [(.vint 321, [("mailing_id", .vint 321)])]
      rfl rfl rfl rfl rfl (List.cons_ne_nil _ _) rfl rfl (List.cons_ne_nil _ _))

theorem parseStatusStep_get (raw r1 : Dict) (hr : parseStatusStep raw = .ok r1) :
    ∀ k, k ≠ "status" → dictGet r1 k = dictGet raw k := by
  intro k hk
  unfold parseStatusStep at hr
  rcases hs : dictGet raw "status" with - | sv
  · rw [hs] at hr
    obtain rfl : raw = r1 := by injection hr
    rfl
  · rw [hs] at hr
    rcases sv with n | s | b | st | l | f
    case vstr =>
      dsimp only at hr
      rcases hf : Status.factory? s with - | st2
      · rw [hf] at hr
        exact Except.noConfusion hr
      · rw [hf] at hr
        obtain rfl : dictInsert raw "status" (.vstatus st2) = r1 := by injection hr
        exact dictGet_insert_ne _ _ _ _ (Ne.symm hk)
    all_goals exact Except.noConfusion hr

theorem parseStatusStep_nodup (raw r1 : Dict) (hr : parseStatusStep raw = .ok r1)
    (hn : keysNodup raw) : keysNodup r1 := by
  unfold parseStatusStep at hr
  rcases hs : dictGet raw "status" with - | sv
  · rw [hs] at hr
    obtain rfl : raw = r1 := by injection hr
    exact hn
  · rw [hs] at hr
    rcases sv with n | s | b | st | l | f
    case vstr =>
      dsimp only at hr
      rcases hf : Status.factory? s with - | st2
      · rw [hf] at hr
        exact Except.noConfusion hr
      · rw [hf] at hr
        obtain rfl : dictInsert raw "status" (.vstatus st2) = r1 := by injection hr
        exact keysNodup_insert raw _ _ hn
    all_goals exact Except.noConfusion hr

theorem dropStatusId_get (d : Dict) (k : String) (hk : k ≠ "member_status_id") :
    dictGet (dropStatusId d) k = dictGet d k := by
  unfold dropStatusId
  by_cases hc : dictContains d "member_status_id" = true
  · rw [if_pos hc]
    exact dictGet_erase_ne _ _ _ (Ne.symm hk)
  · rw [if_neg hc]

theorem dropStatusId_nodup (d : Dict) (hn : keysNodup d) :
    keysNodup (dropStatusId d) := by
  unfold dropStatusId
  by_cases hc : dictContains d "member_status_id" = true
  · rw [if_pos hc]
    exact keysNodup_erase d _ hn
  · rw [if_neg hc]
    exact hn

theorem mergeFieldsStep_get (d body : Dict) (k : String) (hk : k ≠ "fields")
    (hsub : ∀ sub, dictGet d "fields" = some (.vobj sub) → dictGet sub k = none)
    (hb : mergeFieldsStep d = .ok body) :
    dictGet body k = dictGet d k := by
  unfold mergeFieldsStep at hb
  rcases hf : dictGet d "fields" with - | fv
  · rw [hf] at hb
    obtain rfl : d = body := by injection hb
    rfl
  · rw [hf] at hb
    rcases fv with n | s | b | st | l | sub
    case vobj =>
      obtain rfl : dictErase (dictUpdate d sub) "fields" = body := by injection hb
      rw [dictGet_erase_ne _ _ _ (Ne.symm hk)]
      exact dictGet_update_of_not_mem sub k (hsub sub hf) d
    all_goals exact Except.noConfusion hb

theorem mergeFieldsStep_nodup (d body : Dict) (hn : keysNodup d)
    (hb : mergeFieldsStep d = .ok body) : keysNodup body := by
  unfold mergeFieldsStep at hb
  rcases hf : dictGet d "fields" with - | fv
  · rw [hf] at hb
    obtain rfl : d = body := by injection hb
    exact hn
  · rw [hf] at hb
    rcases fv with n | s | b | st | l | sub
    case vobj =>
      obtain rfl : dictErase (dictUpdate d sub) "fields" = body := by injection hb
      exact keysNodup_erase _ _ (keysNodup_update sub d hn)
    all_goals exact Except.noConfusion hb

/-- C8 (counterexample): a raw dict whose nested fields sub-object itself
carries a member_id entry has that entry override the top-level identity
during parse, so re-extraction does not preserve the original identity
value. -/
theorem C8_counterexample :
    parseRaw [("member_id", .vint 123), ("email", .vstr "a@b.com"),
        ("fields", .vobj [("member_id", .vint 999)])] =
      .ok [("member_id", .vint 999), ("email", .vstr "a@b.com")] ∧
    extract ["first_name"] none [("member_id", .vint 999), ("email", .vstr "a@b.com")] =
      .ok [("member_id", .vint 999), ("email", .vstr "a@b.com")] ∧
    dictGet [("member_id", .vint 999), ("email", .vstr "a@b.com")] "member_id" ≠
      some (.vint 123) := by
  refine ⟨rfl, rfl, ?_⟩
  intro h
  rw [show dictGet [("member_id", .vint 999), ("email", .vstr "a@b.com")] "member_id" =
      some (.vint 999) from rfl] at h
  injection h with h1
  injection h1 with h2
  exact absurd h2 (by decide)

/-- C8 (amended): for a raw wire dict with no duplicate keys, a
recognized (or absent) status code, and a nested fields sub-object that
does not itself shadow the member_id or email keys, parse followed by
extract with the default top-level set preserves the identity and email
values exactly; and spec scenario 1 holds verbatim when first_name is an
account shortcut. -/
theorem C8_parse_extract (sh : List String) (raw : Dict) (vm ve : Value)
    (hn : keysNodup raw)
    (hm : dictGet raw "member_id" = some vm)
    (he : dictGet raw "email" = some ve)
    (hstat : dictGet raw "status" = none ∨
      ∃ c st, dictGet raw "status" = some (.vstr c) ∧ Status.factory? c = some st)
    (hfld : dictGet raw "fields" = none ∨
      ∃ sub, dictGet raw "fields" = some (.vobj sub) ∧
        dictGet sub "member_id" = none ∧ dictGet sub "email" = none) :
    (∃ parsed body, parseRaw raw = .ok parsed ∧ extract sh none parsed = .ok body ∧
      dictGet body "member_id" = some vm ∧ dictGet body "email" = some ve) ∧
    parseRaw [("member_id", .vint 123), ("email", .vstr "a@b.com"),
        ("first_name", .vstr "X")] =
      .ok [("member_id", .vint 123), ("email", .vstr "a@b.com"), ("first_name", .vstr "X")] ∧
    extract ["first_name"] none
      [("member_id", .vint 123), ("email", .vstr "a@b.com"), ("first_name", .vstr "X")] =
      .ok [("member_id", .vint 123), ("email", .vstr "a@b.com"),
           ("fields", .vobj [("first_name", .vstr "X")])] := by
  refine ⟨?_, rfl, rfl⟩
  have hps : ∃ r1, parseStatusStep raw = .ok r1 := by
    rcases hstat with h | ⟨c, st, hc, hf⟩
    · exact ⟨raw, by unfold parseStatusStep; rw [h]⟩
    · refine ⟨dictInsert raw "status" (.vstatus st), ?_⟩
      unfold parseStatusStep
      rw [hc]
      dsimp only
      rw [hf]
  obtain ⟨r1, hr1⟩ := hps
  have hr1get := parseStatusStep_get raw r1 hr1
  have hr1n : keysNodup r1 := parseStatusStep_nodup raw r1 hr1 hn
  have hr2get : ∀ k2, k2 ≠ "member_status_id" →
      dictGet (dropStatusId r1) k2 = dictGet r1 k2 :=
    fun k2 hk2 => dropStatusId_get r1 k2 hk2
  have hr2n : keysNodup (dropStatusId r1) := dropStatusId_nodup r1 hr1n
  have hfld2 : dictGet (dropStatusId r1) "fields" = dictGet raw "fields" := by
    rw [hr2get "fields" (by decide), hr1get "fields" (by decide)]
  have hmrg : ∃ parsed, mergeFieldsStep (dropStatusId r1) = .ok parsed := by
    rcases hfld with h | ⟨sub, hsubeq, -, -⟩
    · exact ⟨dropStatusId r1, by unfold mergeFieldsStep; rw [hfld2, h]⟩
    · exact ⟨_, by unfold mergeFieldsStep; rw [hfld2, hsubeq]⟩
  obtain ⟨parsed, hparsed⟩ := hmrg
  have hpr : parseRaw raw = .ok parsed := by
    unfold parseRaw
    rw [hr1]
    exact hparsed
  have hshadow : ∀ k2, (k2 = "member_id" ∨ k2 = "email") →
      ∀ sub, dictGet (dropStatusId r1) "fields" = some (.vobj sub) →
        dictGet sub k2 = none := by
    intro k2 hk2 sub hs
    rw [hfld2] at hs
    rcases hfld with h | ⟨sub2, hsubeq, hs1, hs2⟩
    · rw [h] at hs
      exact Option.noConfusion hs
    · rw [hsubeq] at hs
      injection hs with h5
      injection h5 with h6
      rw [← h6]
      rcases hk2 with rfl | rfl
      · exact hs1
      · exact hs2
  have hpm : dictGet parsed "member_id" = some vm := by
    rw [mergeFieldsStep_get (dropStatusId r1) parsed "member_id" (by decide)
        (hshadow "member_id" (Or.inl rfl)) hparsed,
      hr2get "member_id" (by decide), hr1get "member_id" (by decide)]
    exact hm
  have hpe : dictGet parsed "email" = some ve := by
    rw [mergeFieldsStep_get (dropStatusId r1) parsed "email" (by decide)
        (hshadow "email" (Or.inr rfl)) hparsed,
      hr2get "email" (by decide), hr1get "email" (by decide)]
    exact he
  have hpn : keysNodup parsed := mergeFieldsStep_nodup (dropStatusId r1) parsed hr2n hparsed
  have hcont : dictContains parsed "email" = true := by
    unfold dictContains; rw [hpe]; rfl
  obtain ⟨body, hbody⟩ := extract_ok_exists sh parsed hcont
  exact ⟨parsed, body, hpr, hbody,
    extract_get_top sh parsed body "member_id" vm (by decide) hpn hpm hbody,
    extract_get_top sh parsed body "email" ve (by decide) hpn hpe hbody⟩

/-- Witness for C8 on spec scenario 1's raw dict extended with a status
code and a non-shadowing fields sub-object. -/
theorem C8_parse_extract_witness :
    (∃ parsed body,
      parseRaw [("member_id", .vint 123), ("email", .vstr "a@b.com"),
          ("status", .vstr "a"), ("fields", .vobj [("first_name", .vstr "X")])] = .ok parsed ∧
      extract ["first_name"] none parsed = .ok body ∧
      dictGet body "member_id" = some (.vint 123) ∧
      dictGet body "email" = some (.vstr "a@b.com")) ∧
    parseRaw [("member_id", .vint 123), ("email", .vstr "a@b.com"),
        ("first_name", .vstr "X")] =
      .ok [("member_id", .vint 123), ("email", .vstr "a@b.com"), ("first_name", .vstr "X")] ∧
    extract ["first_name"] none
      [("member_id", .vint 123), ("email", .vstr "a@b.com"), ("first_name", .vstr "X")] =
      .ok [("member_id", .vint 123), ("email", .vstr "a@b.com"),
           ("fields", .vobj [("first_name", .vstr "X")])] :=
  C8_parse_extract ["first_name"]
    [("member_id", .vint 123), ("email", .vstr "a@b.com"),
     ("status", .vstr "a"), ("fields", .vobj [("first_name", .vstr "X")])]
    (.vint 123) (.vstr "a@b.com")
    (by unfold keysNodup; decide)
    rfl rfl
    (Or.inr ⟨"a", .Active, rfl, rfl⟩)
    (Or.inr ⟨[("first_name", .vstr "X")], rfl, rfl, rfl⟩)
